import Mathlib

/-!
# Battery Pack Log — serial-allocation and uniqueness-enforcement engine

A shallow embedding of the server-side allocation engine of the Battery
Pack Log repository (`src/server/routes/packs.ts` and
`src/server/utils/db.ts`), together with proofs of the specification's
claims about it.

JavaScript records (`Record<string, T>`) are modelled as association
lists preserving insertion order; `Set`/`Map` iteration and first-wins
insertion are modelled accordingly.  Dates are passed explicitly as a
`DateInfo` value.  The external label generator (`generateCodes`) is
modelled as an `Option CodeBundle` parameter: `none` is a thrown error,
`some b` a successful bundle.
-/

namespace BatteryPack

/-- Decimal digits of `n`, least significant first, with structural fuel.
With fuel ≥ n this agrees with `Nat.digits 10 n` (proved below).  Used to
embed JavaScript's `String(n)` decimal rendering. -/
def digitsLE : Nat → Nat → List Nat
  | 0, _ => []
  | fuel + 1, n => if n = 0 then [] else n % 10 :: digitsLE fuel (n / 10)

/-- Embedding of JavaScript `String(n)` for a natural number: standard
decimal rendering, most significant digit first. -/
def natToString (n : Nat) : String :=
  if n = 0 then "0" else String.mk (((digitsLE n n).map Nat.digitChar).reverse)

/-- Embedding of JavaScript `s.padStart(w, c)`. -/
def padStart (s : String) (w : Nat) (c : Char) : String :=
  String.mk (List.replicate (w - s.length) c) ++ s

/-- Embedding of JavaScript `s.trim()`: strip leading and trailing
whitespace (the serials handled here are ASCII, where the JavaScript
and Lean whitespace classes agree).  Implemented over the character
list so that it reduces in the kernel. -/
def strTrim (s : String) : String :=
  String.mk (((s.data.dropWhile Char.isWhitespace).reverse.dropWhile Char.isWhitespace).reverse)

/-- Splitting on `'\n'`, the list-level embedding of the
`split(/\r?\n/)` of the source: a `\r` before the `\n` is trailing
whitespace of its line and is removed by the subsequent `trim`, so
splitting on `'\n'` alone is equivalent. -/
def strSplitNLAux : List Char → List Char → List String
  | [], acc => [String.mk acc.reverse]
  | c :: rest, acc =>
    if c = '\n' then String.mk acc.reverse :: strSplitNLAux rest []
    else strSplitNLAux rest (c :: acc)

/-- Embedding of JavaScript `s.split("\n")`. -/
def strSplitNL (s : String) : List String := strSplitNLAux s.data []

/-- Embedding of the JavaScript emptiness test (`filter(Boolean)` drops
exactly the empty strings). -/
def strIsEmpty (s : String) : Bool := s.data.isEmpty

/-- Embedding of JavaScript `s.startsWith(pref)`. -/
def strStartsWith (s pref : String) : Bool := pref.data.isPrefixOf s.data

/-- Embedding of JavaScript `s.slice(n)` for a non-negative `n`. -/
def strDrop (s : String) (n : Nat) : String := String.mk (s.data.drop n)

/-- Embedding of JavaScript `s.slice(-n)` (the last `n` characters). -/
def strTakeRight (s : String) (n : Nat) : String :=
  String.mk (s.data.drop (s.data.length - n))

/-- Embedding of the `^\d{k}$` digits test (combined with the explicit
length checks at the call sites). -/
def strAllDigits (s : String) : Bool := s.data.all Char.isDigit

/-- The numeric value of one decimal digit character. -/
def digitVal (c : Char) : Nat := c.toNat - '0'.toNat

/-- Embedding of `parseInt(s, 10)`: the code only calls `parseInt`
after a `^\d{k}$` regex test, so this is the decimal value of an
all-digit string. -/
def parseDigits (s : String) : Nat :=
  s.data.foldl (fun acc c => acc * 10 + digitVal c) 0

/-- `PackDoc` from `src/server/utils/db.ts`: one pack record. -/
structure PackDoc where
  pack_serial : String
  created_at : String
  created_by : Option String
  /-- module_id -> cells -/
  modules : List (String × List String)
  /-- label references: keys are module ids and "master" -/
  codes : List (String × String)
deriving DecidableEq, Repr

/-- Which of the module-1/2/3 roles are enabled (`Config.modulesEnabled`). -/
structure ModulesEnabled where
  m1 : Bool
  m2 : Bool
  m3 : Bool
deriving DecidableEq, Repr

/-- `Config` from `src/server/utils/db.ts`. -/
structure Config where
  model : String
  batch : String
  modulesEnabled : ModulesEnabled
deriving DecidableEq, Repr

/-- `BatteryDB` from `src/server/utils/db.ts`: the Fleet Document. -/
structure BatteryDB where
  packs : List (String × PackDoc)
  config : Config
deriving DecidableEq, Repr

/-- The ambient date, passed explicitly (`new Date()` in the source).
`month` is 1-based (the source uses `getMonth() + 1`); `iso` is the
opaque `toISOString()` value. -/
structure DateInfo where
  year : Nat
  month : Nat
  day : Nat
  iso : String
deriving DecidableEq, Repr

/-- `db.packs[id]` read access: JavaScript objects have unique keys, so
the first matching entry is the value. -/
def lookupPack (db : BatteryDB) (id : String) : Option PackDoc :=
  (db.packs.find? (fun e => e.1 == id)).map (·.2)

/-- `db.packs[id] = doc` assignment: replaces the entry at an existing
key in place (preserving key order), else appends. -/
def insertPack (packs : List (String × PackDoc)) (id : String) (d : PackDoc) :
    List (String × PackDoc) :=
  if packs.any (fun e => e.1 == id) then
    packs.map (fun e => if e.1 == id then (id, d) else e)
  else packs ++ [(id, d)]

/-- `getAllModuleIds` from `src/server/utils/db.ts`: every module key of
every pack (a `Set` in the source; only membership is consumed). -/
def getAllModuleIds (db : BatteryDB) : List String :=
  (db.packs.map (fun e => e.2.modules.map (·.1))).flatten

/-- All `(cell, pack id, module id)` occurrences of one pack, in order. -/
def packTriples (pid : String) (p : PackDoc) : List (String × String × String) :=
  p.modules.flatMap (fun m => m.2.map (fun c => (c, pid, m.1)))

/-- All `(cell, pack id, module id)` occurrences in document order. -/
def allCellTriples (db : BatteryDB) : List (String × String × String) :=
  db.packs.flatMap (fun e => packTriples e.1 e.2)

/-- `getAllCells` from `src/server/utils/db.ts` applied to one cell:
the source builds a first-wins `Map` over all occurrences, so lookup
returns the owning `(pack, module)` of the first occurrence. -/
def getAllCells (db : BatteryDB) (cell : String) : Option (String × String) :=
  ((allCellTriples db).find? (fun t => t.1 == cell)).map (·.2)

/-- `duplicatesInArray` from `src/server/routes/packs.ts`: `seen`/`dup`
sets, returning the duplicated elements in first-duplication order. -/
def duplicatesInArray (arr : List String) : List String :=
  go arr [] []
where
  /-- the loop, with `seen` and `dup` as insertion-ordered sets -/
  go : List String → List String → List String → List String
  | [], _, dup => dup
  | a :: rest, seen, dup =>
    if a ∈ seen then go rest seen (if a ∈ dup then dup else dup ++ [a])
    else go rest (seen ++ [a]) dup

/-- The cells-payload of one module as submitted: either raw multi-line
text or an array (the union type `string | string[]` in the source). -/
inductive CellsInput
  | text (s : String)
  | arr (l : List String)
deriving DecidableEq, Repr

/-- `normalizeCells` from `src/server/routes/packs.ts`: `null`/missing
gives `[]`; arrays are trimmed and empty entries dropped; strings are
split on line breaks, trimmed, and empty lines dropped.  (The regex
`/\r?\n/` split followed by `trim` is equivalent to splitting on `\n`
and trimming, since `trim` removes a trailing `\r`.) -/
def normalizeCells : Option CellsInput → List String
  | none => []
  | some (.arr l) => (l.map strTrim).filter (fun s => !strIsEmpty s)
  | some (.text s) => ((strSplitNL s).map strTrim).filter (fun s => !strIsEmpty s)

/-- A submission to `generatePack` / `savePackOnly` after the
field-alias resolution (`pickCells`) of the source. -/
structure GenInput where
  pack_serial : Option String
  overwrite : Bool
  operator : Option String
  module1_cells : Option CellsInput
  module2_cells : Option CellsInput
  module3_cells : Option CellsInput
deriving DecidableEq, Repr

/-- A successful `generateCodes` result: master label URL plus one URL
per module id. -/
structure CodeBundle where
  masterUrl : String
  moduleUrls : String → String

/-- The normalized module-1 payload of a submission. -/
def m1Of (inp : GenInput) : List String := normalizeCells inp.module1_cells

/-- The normalized module-2 payload of a submission. -/
def m2Of (inp : GenInput) : List String := normalizeCells inp.module2_cells

/-- The normalized module-3 payload of a submission. -/
def m3Of (inp : GenInput) : List String := normalizeCells inp.module3_cells

/-- `providedCount`: how many normalized payloads are non-empty. -/
def providedCountOf (inp : GenInput) : Nat :=
  (if (m1Of inp).length > 0 then 1 else 0) +
  (if (m2Of inp).length > 0 then 1 else 0) +
  (if (m3Of inp).length > 0 then 1 else 0)

/-- `requiredCount`: the module count implied by the configuration's
enabled-module flags. -/
def requiredCountOf (cfg : Config) : Nat :=
  if cfg.modulesEnabled.m1 && cfg.modulesEnabled.m2 && cfg.modulesEnabled.m3 then 3
  else if cfg.modulesEnabled.m1 && cfg.modulesEnabled.m2 then 2
  else 1

/-- `desiredCount`: explicit payloads override the configured default. -/
def desiredCountOf (inp : GenInput) (cfg : Config) : Nat :=
  if providedCountOf inp > 0 then providedCountOf inp else requiredCountOf cfg

/-- The prefix of a pack serial: `RIV` + 2-digit year + 2-digit month +
model code + 3-digit left-padded batch code.  `cfg.batch || "001"`
treats the empty string (falsy in JavaScript) as absent. -/
def packPrefix (now : DateInfo) (cfg : Config) : String :=
  "RIV" ++ strTakeRight (natToString now.year) 2 ++ padStart (natToString now.month) 2 '0'
    ++ cfg.model ++ padStart (if cfg.batch = "" then "001" else cfg.batch) 3 '0'

/-- The loop body of `nextPackSerial`: fold a pack key into the running
maximum unit counter, ignoring keys that do not start with the prefix or
whose suffix fails the `^\d{4}$` test. -/
def packUnitStep (pref : String) (acc : Nat) (id : String) : Nat :=
  if strStartsWith id pref then
    if (strDrop id pref.length).length = 4 ∧ strAllDigits (strDrop id pref.length) then
      max acc (parseDigits (strDrop id pref.length))
    else acc
  else acc

/-- `nextPackSerial` from `src/server/routes/packs.ts`.  Scans every
pack key; keys starting with the prefix whose remainder passes
`^\d{4}$` contribute their numeric value to the running maximum.  In
the source `next = maxUnit + 1 || 1`; `maxUnit + 1 ≥ 1` always, so
`next = maxUnit + 1`. -/
def nextPackSerial (now : DateInfo) (db : BatteryDB) : String :=
  let pref := packPrefix now db.config
  let maxUnit := (db.packs.map (·.1)).foldl (packUnitStep pref) 0
  pref ++ padStart (natToString (maxUnit + 1)) 4 '0'

/-- The per-day module serial prefix: `MLFP` + 2-digit day + 2-digit year. -/
def modulePrefix (now : DateInfo) : String :=
  "MLFP" ++ padStart (natToString now.day) 2 '0' ++ strTakeRight (natToString now.year) 2

/-- One candidate module serial: prefix + 5-digit left-padded counter. -/
def nextModuleId (pref : String) (n : Nat) : String :=
  pref ++ padStart (natToString n) 5 '0'

/-- The `while (out.length < count)` loop of `allocateModuleIds`,
collecting candidates not already used.  The source loop is unbounded;
it terminates because the candidate serials are pairwise distinct, so
at most `used.length` of them can be skipped.  `fuel = count +
used.length` therefore reproduces the loop exactly (proved below). -/
def allocGo (used : List String) (pref : String) : Nat → Nat → Nat → List String
  | _, 0, _ => []
  | 0, _ + 1, _ => []
  | fuel + 1, need + 1, n =>
    let cand := nextModuleId pref n
    if cand ∈ used then allocGo used pref fuel (need + 1) (n + 1)
    else cand :: allocGo used pref fuel need (n + 1)

/-- `allocateModuleIds` from `src/server/routes/packs.ts`: scan all
module ids for today's prefix (`MLFPddyy` + exactly 5 digits), take the
maximum counter, then emit `count` fresh serials starting at
`Math.max(1, max + 1)`, skipping any that already exist. -/
def allocateModuleIds (now : DateInfo) (db : BatteryDB) (count : Nat) : List String :=
  let pref := modulePrefix now
  let used := getAllModuleIds db
  let maxN := used.foldl (fun acc id =>
    if strStartsWith id pref ∧ id.length = pref.length + 5 then
      if (strDrop id pref.length).length = 5 ∧ strAllDigits (strDrop id pref.length) then
        max acc (parseDigits (strDrop id pref.length))
      else acc
    else acc) 0
  allocGo used pref (count + used.length) count (max 1 (maxN + 1))

/-- The resolved pack serial of a submission: the caller's trimmed
serial when non-empty (`pack_serial && pack_serial.trim().length`),
otherwise `nextPackSerial`. -/
def resolvedSerial (inp : GenInput) (now : DateInfo) (db : BatteryDB) : String :=
  match inp.pack_serial with
  | some s => if strTrim s ≠ "" then strTrim s else nextPackSerial now db
  | none => nextPackSerial now db

/-- The cross-fleet conflict list of a submission: for each submitted
cell in `[...m1, ...m2, ...m3]` order, a `{cell, pack, module}` record
when the global cell index already contains it. -/
def conflictsOf (inp : GenInput) (db : BatteryDB) : List (String × String × String) :=
  (m1Of inp ++ m2Of inp ++ m3Of inp).filterMap
    (fun c => (getAllCells db c).map (fun pm => (c, pm.1, pm.2)))

/-- `operator || null`: the empty string (falsy) becomes null. -/
def operatorOf (inp : GenInput) : Option String :=
  match inp.operator with
  | some s => if s = "" then none else some s
  | none => none

/-- The non-empty normalized payloads of a submission, in module order;
the source assigns `ids[idx]` to each with `idx` incremented per
non-empty payload. -/
def entriesOf (inp : GenInput) : List (List String) :=
  (if (m1Of inp).length > 0 then [m1Of inp] else []) ++
  (if (m2Of inp).length > 0 then [m2Of inp] else []) ++
  (if (m3Of inp).length > 0 then [m3Of inp] else [])

/-- The `modules` record of a freshly built pack: the i-th non-empty
payload keyed by the i-th allocated module serial.  (`ids` always has
exactly as many elements as there are non-empty payloads on the success
path, proved below, so the `zipWith` truncation never fires.) -/
def buildModules (ids : List String) (inp : GenInput) : List (String × List String) :=
  List.zipWith (fun cells id => (id, cells)) (entriesOf inp) ids

/-- The `codes` record of a freshly built pack: the master URL first,
then one URL per module id. -/
def buildCodes (b : CodeBundle) (modules : List (String × List String)) :
    List (String × String) :=
  ("master", b.masterUrl) :: modules.map (fun e => (e.1, b.moduleUrls e.1))

/-- The outcome of a `generatePack` / `savePackOnly` request. -/
inductive GenResult
  /-- 400: a required module cell list is missing -/
  | validationError (msg : String)
  /-- 409: duplicate cells within a module, with the per-module listings -/
  | intraDup (d1 d2 d3 : List String)
  /-- 409: pack already exists and overwrite not requested -/
  | packExists
  /-- 409: submitted cells already stored elsewhere in the fleet -/
  | collision (conflicts : List (String × String × String))
  /-- 500: `generateCodes` threw -/
  | codesFailed
  /-- 200: the pack record as built and persisted -/
  | ok (pack : PackDoc)
deriving DecidableEq, Repr

/-- Whether a result is the 200 success response. -/
def GenResult.isOk : GenResult → Bool
  | .ok _ => true
  | _ => false

/-- `generatePack` from `src/server/routes/packs.ts` as a pure function
of submission, date, label-generation outcome and document, returning
the response and the resulting document. -/
def generatePack (inp : GenInput) (now : DateInfo) (bundle : Option CodeBundle)
    (db : BatteryDB) : GenResult × BatteryDB :=
  let finalPackSerial := resolvedSerial inp now db
  let m1 := m1Of inp
  let m2 := m2Of inp
  let m3 := m3Of inp
  let desiredCount := desiredCountOf inp db.config
  if 1 ≤ desiredCount ∧ m1 = [] then (.validationError "Module 1 cell list is required", db)
  else if 2 ≤ desiredCount ∧ m2 = [] then (.validationError "Module 2 cell list is required", db)
  else if 3 ≤ desiredCount ∧ m3 = [] then (.validationError "Module 3 cell list is required", db)
  else
    let dup1 := duplicatesInArray m1
    let dup2 := duplicatesInArray m2
    let dup3 := duplicatesInArray m3
    if dup1 ≠ [] ∨ dup2 ≠ [] ∨ dup3 ≠ [] then (.intraDup dup1 dup2 dup3, db)
    else if (lookupPack db finalPackSerial).isSome ∧ inp.overwrite = false then
      (.packExists, db)
    else
      let conflicts := conflictsOf inp db
      if conflicts ≠ [] then (.collision conflicts, db)
      else
        let ids := allocateModuleIds now db desiredCount
        match bundle with
        | none => (.codesFailed, db)
        | some b =>
          let modules := buildModules ids inp
          let doc : PackDoc :=
            { pack_serial := finalPackSerial
              created_at := now.iso
              created_by := operatorOf inp
              modules := modules
              codes := buildCodes b modules }
          (.ok doc, { db with packs := insertPack db.packs finalPackSerial doc })

/-- `savePackOnly` from `src/server/routes/packs.ts`: identical
validation and allocation, but no label generation; `codes` is
`{ master: "" }`. -/
def savePackOnly (inp : GenInput) (now : DateInfo) (db : BatteryDB) :
    GenResult × BatteryDB :=
  let finalPackSerial := resolvedSerial inp now db
  let m1 := m1Of inp
  let m2 := m2Of inp
  let m3 := m3Of inp
  let desiredCount := desiredCountOf inp db.config
  if 1 ≤ desiredCount ∧ m1 = [] then (.validationError "Module 1 cell list is required", db)
  else if 2 ≤ desiredCount ∧ m2 = [] then (.validationError "Module 2 cell list is required", db)
  else if 3 ≤ desiredCount ∧ m3 = [] then (.validationError "Module 3 cell list is required", db)
  else
    let dup1 := duplicatesInArray m1
    let dup2 := duplicatesInArray m2
    let dup3 := duplicatesInArray m3
    if dup1 ≠ [] ∨ dup2 ≠ [] ∨ dup3 ≠ [] then (.intraDup dup1 dup2 dup3, db)
    else if (lookupPack db finalPackSerial).isSome ∧ inp.overwrite = false then
      (.packExists, db)
    else
      let conflicts := conflictsOf inp db
      if conflicts ≠ [] then (.collision conflicts, db)
      else
        let ids := allocateModuleIds now db desiredCount
        let modules := buildModules ids inp
        let doc : PackDoc :=
          { pack_serial := finalPackSerial
            created_at := now.iso
            created_by := operatorOf inp
            modules := modules
            codes := [("master", "")] }
        (.ok doc, { db with packs := insertPack db.packs finalPackSerial doc })

/-- `updatePack` from `src/server/routes/packs.ts`: replace the
`modules` field of an existing pack with the request body, with no
validation of any kind; absent packs give 404 with no write. -/
def updatePack (id : String) (modules : List (String × List String))
    (db : BatteryDB) : Bool × BatteryDB :=
  match lookupPack db id with
  | none => (false, db)
  | some p => (true, { db with packs := insertPack db.packs id { p with modules := modules } })

/-- `deletePack` from `src/server/routes/packs.ts`: remove the key from
the document; absent packs give 404 with no write. -/
def deletePack (id : String) (db : BatteryDB) : Bool × BatteryDB :=
  if (lookupPack db id).isSome then
    (true, { db with packs := db.packs.filter (fun e => e.1 ≠ id) })
  else (false, db)

/-- The required-payload validation of the engine passes: none of the
three "Module i cell list is required" rejections fires. -/
def requiredOk (inp : GenInput) (cfg : Config) : Prop :=
  ¬(1 ≤ desiredCountOf inp cfg ∧ m1Of inp = []) ∧
  ¬(2 ≤ desiredCountOf inp cfg ∧ m2Of inp = []) ∧
  ¬(3 ≤ desiredCountOf inp cfg ∧ m3Of inp = [])

instance (inp : GenInput) (cfg : Config) : Decidable (requiredOk inp cfg) := by
  unfold requiredOk; infer_instance

/-- The intra-module duplicate check of the engine passes: all three
per-module duplicate listings are empty. -/
def dupsOk (inp : GenInput) : Prop :=
  duplicatesInArray (m1Of inp) = [] ∧ duplicatesInArray (m2Of inp) = [] ∧
  duplicatesInArray (m3Of inp) = []

instance (inp : GenInput) : Decidable (dupsOk inp) := by
  unfold dupsOk; infer_instance

/-- Global cell uniqueness of a Fleet Document: no cell serial occurs
under two different (pack, module) pairs. -/
def cellUnique (db : BatteryDB) : Prop :=
  ∀ t1 ∈ allCellTriples db, ∀ t2 ∈ allCellTriples db, t1.1 = t2.1 → t1.2 = t2.2

instance (db : BatteryDB) : Decidable (cellUnique db) := by
  unfold cellUnique; infer_instance

/-- No cell serial appears in two different normalized module payloads
of one submission (the condition the amended invariant claim needs). -/
def payloadsDisjoint (inp : GenInput) : Prop :=
  (∀ c ∈ m1Of inp, c ∉ m2Of inp) ∧ (∀ c ∈ m1Of inp, c ∉ m3Of inp) ∧
  (∀ c ∈ m2Of inp, c ∉ m3Of inp)

instance (inp : GenInput) : Decidable (payloadsDisjoint inp) := by
  unfold payloadsDisjoint; infer_instance

/-- Modelled from the spec's words for the refinement claim about
`nextPackSerial`: the "four-digit unit counter" of a pack serial with
respect to a prefix — defined only when the suffix after the prefix is
exactly four digits, and ignored (`none`) otherwise. -/
def specUnitOf (pref : String) (id : String) : Option Nat :=
  if strStartsWith id pref ∧ (strDrop id pref.length).length = 4 ∧
      strAllDigits (strDrop id pref.length) then
    some (parseDigits (strDrop id pref.length))
  else none

/-- Modelled from the spec's words: the maximum four-digit unit counter
among pack serials of the document sharing the given prefix (0 when no
such pack exists). -/
def specMaxUnit (now : DateInfo) (db : BatteryDB) : Nat :=
  ((db.packs.map (·.1)).filterMap (specUnitOf (packPrefix now db.config))).foldl max 0

/-- The modules record the engine builds for a submission against a
given document snapshot. -/
def builtModulesOf (inp : GenInput) (now : DateInfo) (db : BatteryDB) :
    List (String × List String) :=
  buildModules (allocateModuleIds now db (desiredCountOf inp db.config)) inp

/-- The pack record the engine builds for a submission (parametrised by
the `codes` record, which differs between `generatePack` and
`savePackOnly`). -/
def builtPack (inp : GenInput) (now : DateInfo) (db : BatteryDB)
    (codes : List (String × String)) : PackDoc :=
  { pack_serial := resolvedSerial inp now db
    created_at := now.iso
    created_by := operatorOf inp
    modules := builtModulesOf inp now db
    codes := codes }

/-- A concrete Fleet Configuration used by the concrete examples below
(the default of `readDB`). -/
def exCfg : Config := ⟨"LFP9", "001", ⟨true, true, false⟩⟩

/-- A concrete date for the concrete examples below. -/
def exNow : DateInfo := ⟨5, 10, 1, "T"⟩

/-- A trivial successful label bundle for the concrete examples below. -/
def exBundle : CodeBundle := ⟨"", fun _ => ""⟩

/-- An empty Fleet Document. -/
def exEmptyDB : BatteryDB := ⟨[], exCfg⟩

/-- A concrete stored pack with one module holding cell `B`. -/
def exPack : PackDoc := ⟨"P1", "T", none, [("M1", ["B"])], []⟩

/-- A document holding `exPack` under serial `P1`. -/
def exDB : BatteryDB := ⟨[("P1", exPack)], exCfg⟩

/-- A document holding a pack `P1` whose only module holds cell `X`. -/
def exDB9 : BatteryDB := ⟨[("P1", ⟨"P1", "T", none, [("M1", ["X"])], []⟩)], exCfg⟩

/-- The number of already-used candidates in the window of `fuel`
consecutive candidate serials starting at `n` (the iterations of the
allocation loop that skip). -/
def badCount (used : List String) (pref : String) : Nat → Nat → Nat
  | _, 0 => 0
  | n, fuel + 1 =>
    (if nextModuleId pref n ∈ used then 1 else 0) + badCount used pref (n + 1) fuel

/-! ### Decimal rendering: `natToString` is genuine base-10 notation -/

theorem digitsLE_eq_digits : ∀ fuel n, n ≤ fuel → digitsLE fuel n = Nat.digits 10 n := by
  intro fuel
  induction fuel with
  | zero => intro n hn; interval_cases n; simp [digitsLE]
  | succ f ih =>
    intro n hn
    by_cases h0 : n = 0
    · simp [digitsLE, h0]
    · rw [digitsLE, if_neg h0, ih (n / 10) ?_, ← Nat.digits_def' (by norm_num) (Nat.pos_of_ne_zero h0)]
      have : n / 10 < n := Nat.div_lt_self (Nat.pos_of_ne_zero h0) (by norm_num)
      omega

theorem natToString_data_of_ne_zero {n : Nat} (h : n ≠ 0) :
    (natToString n).data = ((Nat.digits 10 n).map Nat.digitChar).reverse := by
  rw [natToString, if_neg h, digitsLE_eq_digits n n le_rfl]

theorem digitChar_ne_zero {d : Nat} (hlt : d < 10) (h0 : d ≠ 0) : Nat.digitChar d ≠ '0' := by
  interval_cases d <;> simp_all <;> decide

theorem digitChar_inj {a b : Nat} (ha : a < 10) (hb : b < 10)
    (h : Nat.digitChar a = Nat.digitChar b) : a = b := by
  interval_cases a <;> interval_cases b <;> simp_all <;> exact absurd h (by decide)

theorem natToString_head {n : Nat} (h : n ≠ 0) :
    ∃ c l, (natToString n).data = c :: l ∧ c ≠ '0' := by
  have hne : Nat.digits 10 n ≠ [] := Nat.digits_ne_nil_iff_ne_zero.mpr h
  rcases (Nat.digits 10 n).eq_nil_or_concat with hcon | ⟨l', d, hcon⟩
  · exact absurd hcon hne
  · refine ⟨Nat.digitChar d, (l'.map Nat.digitChar).reverse, ?_, ?_⟩
    · rw [natToString_data_of_ne_zero h, hcon]
      simp
    · have hopt : (Nat.digits 10 n).getLast? = some d := by
        rw [hcon, List.concat_eq_append]; simp
      have hdlast : (Nat.digits 10 n).getLast hne = d := by
        have := List.getLast?_eq_getLast (Nat.digits 10 n) hne
        rw [this] at hopt
        exact Option.some.inj hopt
      have hd0 : d ≠ 0 := hdlast ▸ Nat.getLast_digit_ne_zero 10 h
      have hdm : d ∈ Nat.digits 10 n := by rw [hcon]; simp
      exact digitChar_ne_zero (Nat.digits_lt_base (by norm_num) hdm) hd0

theorem map_digitChar_inj : ∀ {L1 L2 : List Nat}, (∀ d ∈ L1, d < 10) → (∀ d ∈ L2, d < 10) →
    L1.map Nat.digitChar = L2.map Nat.digitChar → L1 = L2
  | [], [], _, _, _ => rfl
  | [], _ :: _, _, _, h => by simp at h
  | _ :: _, [], _, _, h => by simp at h
  | a :: l1, b :: l2, h1, h2, h => by
    simp only [List.map_cons, List.cons.injEq] at h
    have hab : a = b :=
      digitChar_inj (h1 a (by simp)) (h2 b (by simp)) h.1
    have : l1 = l2 :=
      map_digitChar_inj (fun d hd => h1 d (by simp [hd])) (fun d hd => h2 d (by simp [hd])) h.2
    simp [hab, this]

theorem natToString_injective : Function.Injective natToString := by
  intro m n h
  by_cases hm : m = 0 <;> by_cases hn : n = 0
  · omega
  · obtain ⟨c, l, hdata, hc⟩ := natToString_head hn
    have h2 : (natToString 0).data = (natToString n).data := by rw [hm] at h; rw [h]
    rw [hdata] at h2
    simp [natToString] at h2
    exact absurd h2.1.symm hc
  · obtain ⟨c, l, hdata, hc⟩ := natToString_head hm
    have h2 : (natToString m).data = (natToString 0).data := by rw [hn] at h; rw [h]
    rw [hdata] at h2
    simp [natToString] at h2
    exact absurd h2.1 hc
  · have hdata : (natToString m).data = (natToString n).data := by rw [h]
    rw [natToString_data_of_ne_zero hm, natToString_data_of_ne_zero hn] at hdata
    have hmap : (Nat.digits 10 m).map Nat.digitChar = (Nat.digits 10 n).map Nat.digitChar :=
      List.reverse_injective hdata
    have hdig : Nat.digits 10 m = Nat.digits 10 n :=
      map_digitChar_inj (fun d hd => Nat.digits_lt_base (by norm_num) hd)
        (fun d hd => Nat.digits_lt_base (by norm_num) hd) hmap
    calc m = Nat.ofDigits 10 (Nat.digits 10 m) := (Nat.ofDigits_digits 10 m).symm
    _ = Nat.ofDigits 10 (Nat.digits 10 n) := by rw [hdig]
    _ = n := Nat.ofDigits_digits 10 n

/-! ### Left-padding with zeros preserves distinctness of numerals -/

theorem zeros_pad_inj : ∀ (a b : Nat) {l1 l2 : List Char},
    l1.head? ≠ some '0' → l2.head? ≠ some '0' →
    List.replicate a '0' ++ l1 = List.replicate b '0' ++ l2 → l1 = l2
  | 0, 0, _, _, _, _, h => by simpa using h
  | 0, b + 1, l1, l2, h1, _, h => by
    simp only [List.replicate_succ, List.replicate_zero, List.nil_append, List.cons_append] at h
    subst h
    simp at h1
  | a + 1, 0, l1, l2, _, h2, h => by
    simp only [List.replicate_succ, List.replicate_zero, List.nil_append, List.cons_append] at h
    rw [← h] at h2
    simp at h2
  | a + 1, b + 1, l1, l2, h1, h2, h => by
    simp only [List.replicate_succ, List.cons_append, List.cons.injEq] at h
    exact zeros_pad_inj a b h1 h2 h.2

theorem padStart_natToString_inj {w : Nat} {m n : Nat} (hm : m ≠ 0) (hn : n ≠ 0)
    (h : padStart (natToString m) w '0' = padStart (natToString n) w '0') : m = n := by
  apply natToString_injective
  obtain ⟨cm, lm, hdm, hcm⟩ := natToString_head hm
  obtain ⟨cn, ln, hdn, hcn⟩ := natToString_head hn
  have hdata : (padStart (natToString m) w '0').data = (padStart (natToString n) w '0').data := by
    rw [h]
  simp only [padStart, String.data_append] at hdata
  apply String.ext
  refine zeros_pad_inj (w - (natToString m).length) (w - (natToString n).length) ?_ ?_ hdata
  · rw [hdm]; simpa using hcm
  · rw [hdn]; simpa using hcn

theorem nextModuleId_inj {pref : String} {m n : Nat} (hm : 1 ≤ m) (hn : 1 ≤ n)
    (h : nextModuleId pref m = nextModuleId pref n) : m = n := by
  have hdata : (nextModuleId pref m).data = (nextModuleId pref n).data := by rw [h]
  simp only [nextModuleId, String.data_append] at hdata
  have : (padStart (natToString m) 5 '0').data = (padStart (natToString n) 5 '0').data :=
    List.append_cancel_left hdata
  exact padStart_natToString_inj (by omega) (by omega) (String.ext this)

theorem strIsEmpty_eq_false {s : String} (h : s ≠ "") : strIsEmpty s = false := by
  unfold strIsEmpty
  rcases s with ⟨data⟩
  cases data with
  | nil => exact absurd rfl h
  | cons c cs => rfl

/-! ### The allocation loop: termination within the fuel, freshness,
distinctness -/

theorem allocGo_length (used : List String) (pref : String) :
    ∀ fuel need n, need + badCount used pref n fuel ≤ fuel →
      (allocGo used pref fuel need n).length = need := by
  intro fuel
  induction fuel with
  | zero =>
    intro need n h
    simp [badCount] at h
    simp [h, allocGo]
  | succ f ih =>
    intro need n h
    match need with
    | 0 => simp [allocGo]
    | d + 1 =>
      rw [badCount] at h
      by_cases hc : nextModuleId pref n ∈ used
      · rw [if_pos hc] at h
        rw [allocGo, if_pos hc]
        exact ih (d + 1) (n + 1) (by omega)
      · rw [if_neg hc] at h
        rw [allocGo, if_neg hc, List.length_cons]
        rw [ih d (n + 1) (by omega)]

theorem badCount_le (used : List String) (pref : String) :
    ∀ fuel n (S : List String), S.Nodup → 1 ≤ n →
      (∀ i, i < fuel → nextModuleId pref (n + i) ∈ used → nextModuleId pref (n + i) ∈ S) →
      badCount used pref n fuel ≤ S.length := by
  intro fuel
  induction fuel with
  | zero => intro n S _ _ _; simp [badCount]
  | succ f ih =>
    intro n S hS hn hwin
    rw [badCount]
    by_cases hc : nextModuleId pref n ∈ used
    · have hmemS : nextModuleId pref n ∈ S := by
        have := hwin 0 (by omega) (by simpa using hc)
        simpa using this
      rw [if_pos hc]
      have herase : badCount used pref (n + 1) f ≤ (S.erase (nextModuleId pref n)).length := by
        apply ih (n + 1) _ (hS.erase _) (by omega)
        intro i hi hu
        have hne : nextModuleId pref (n + 1 + i) ≠ nextModuleId pref n := by
          intro heq
          have := nextModuleId_inj (by omega) (by omega) heq
          omega
        have : nextModuleId pref (n + 1 + i) ∈ S := by
          have := hwin (i + 1) (by omega) (by rw [show n + (i + 1) = n + 1 + i by omega]; exact hu)
          rw [show n + (i + 1) = n + 1 + i by omega] at this
          exact this
        exact (List.mem_erase_of_ne hne).mpr this
      have hlen : (S.erase (nextModuleId pref n)).length = S.length - 1 :=
        List.length_erase_of_mem hmemS
      have hpos : 1 ≤ S.length := List.length_pos.mpr (List.ne_nil_of_mem hmemS)
      omega
    · rw [if_neg hc]
      have : badCount used pref (n + 1) f ≤ S.length := by
        apply ih (n + 1) S hS (by omega)
        intro i hi hu
        have := hwin (i + 1) (by omega)
          (by rw [show n + (i + 1) = n + 1 + i by omega]; exact hu)
        rw [show n + (i + 1) = n + 1 + i by omega] at this
        exact this
      omega

theorem allocGo_mem (used : List String) (pref : String) :
    ∀ fuel need n x, x ∈ allocGo used pref fuel need n →
      (∃ i, x = nextModuleId pref (n + i)) ∧ x ∉ used := by
  intro fuel
  induction fuel with
  | zero =>
    intro need n x hx
    match need with
    | 0 => simp [allocGo] at hx
    | _ + 1 => simp [allocGo] at hx
  | succ f ih =>
    intro need n x hx
    match need with
    | 0 => simp [allocGo] at hx
    | d + 1 =>
      rw [allocGo] at hx
      by_cases hc : nextModuleId pref n ∈ used
      · rw [if_pos hc] at hx
        obtain ⟨⟨i, hi⟩, hnu⟩ := ih (d + 1) (n + 1) x hx
        exact ⟨⟨i + 1, by rw [hi]; congr 1; omega⟩, hnu⟩
      · rw [if_neg hc] at hx
        rcases List.mem_cons.mp hx with hx | hx
        · exact ⟨⟨0, by simpa using hx⟩, hx ▸ hc⟩
        · obtain ⟨⟨i, hi⟩, hnu⟩ := ih d (n + 1) x hx
          exact ⟨⟨i + 1, by rw [hi]; congr 1; omega⟩, hnu⟩

theorem allocGo_nodup (used : List String) (pref : String) :
    ∀ fuel need n, 1 ≤ n → (allocGo used pref fuel need n).Nodup := by
  intro fuel
  induction fuel with
  | zero =>
    intro need n _
    match need with
    | 0 => simp [allocGo]
    | _ + 1 => simp [allocGo]
  | succ f ih =>
    intro need n hn
    match need with
    | 0 => simp [allocGo]
    | d + 1 =>
      rw [allocGo]
      by_cases hc : nextModuleId pref n ∈ used
      · rw [if_pos hc]; exact ih (d + 1) (n + 1) (by omega)
      · rw [if_neg hc]
        refine List.nodup_cons.mpr ⟨?_, ih d (n + 1) (by omega)⟩
        intro hmem
        obtain ⟨⟨i, hi⟩, -⟩ := allocGo_mem used pref f d (n + 1) _ hmem
        have := @nextModuleId_inj pref n (n + 1 + i) (by omega) (by omega) hi
        omega

theorem mem_getAllModuleIds {db : BatteryDB} {mid : String} :
    mid ∈ getAllModuleIds db ↔ ∃ e ∈ db.packs, ∃ m ∈ e.2.modules, m.1 = mid := by
  simp only [getAllModuleIds, List.mem_flatten, List.mem_map]
  constructor
  · rintro ⟨_, ⟨e, he, rfl⟩, hm⟩
    obtain ⟨m, hm, hmid⟩ := List.mem_map.mp hm
    exact ⟨e, he, m, hm, hmid⟩
  · rintro ⟨e, he, m, hm, hmid⟩
    exact ⟨e.2.modules.map (·.1), ⟨e, he, rfl⟩, List.mem_map.mpr ⟨m, hm, hmid⟩⟩

theorem badCount_le_length (used : List String) (pref : String) (fuel n : Nat)
    (hn : 1 ≤ n) : badCount used pref n fuel ≤ used.length := by
  have h1 : badCount used pref n fuel ≤ used.dedup.length :=
    badCount_le used pref fuel n used.dedup (List.nodup_dedup _) hn
      (fun i _ hu => List.mem_dedup.mpr hu)
  have h2 := (List.dedup_sublist used).length_le
  omega

theorem allocGo_length_exact (used : List String) (pref : String) (count n : Nat)
    (hn : 1 ≤ n) : (allocGo used pref (count + used.length) count n).length = count := by
  apply allocGo_length
  have := badCount_le_length used pref (count + used.length) n hn
  omega

theorem allocateModuleIds_length (now : DateInfo) (db : BatteryDB) (count : Nat) :
    (allocateModuleIds now db count).length = count := by
  unfold allocateModuleIds
  exact allocGo_length_exact _ _ _ _ (le_max_left _ _)

theorem allocateModuleIds_nodup (now : DateInfo) (db : BatteryDB) (count : Nat) :
    (allocateModuleIds now db count).Nodup := by
  unfold allocateModuleIds
  exact allocGo_nodup _ _ _ _ _ (by omega)

theorem allocateModuleIds_fresh (now : DateInfo) (db : BatteryDB) (count : Nat) :
    ∀ id ∈ allocateModuleIds now db count, id ∉ getAllModuleIds db := by
  intro id hid
  unfold allocateModuleIds at hid
  exact (allocGo_mem _ _ _ _ _ _ hid).2

/-! ### `duplicatesInArray` returns exactly the elements occurring
more than once -/

theorem dup_go_mem : ∀ (arr seen dup : List String) (x : String),
    x ∈ duplicatesInArray.go arr seen dup ↔
      x ∈ dup ∨ (x ∈ seen ∧ x ∈ arr) ∨ 2 ≤ arr.count x := by
  intro arr
  induction arr with
  | nil =>
    intro seen dup x
    simp [duplicatesInArray.go]
  | cons a rest ih =>
    intro seen dup x
    rw [duplicatesInArray.go]
    by_cases hs : a ∈ seen
    · rw [if_pos hs, ih]
      have hdup : ∀ y : String, (y ∈ if a ∈ dup then dup else dup ++ [a]) ↔ y ∈ dup ∨ y = a := by
        intro y
        by_cases hd : a ∈ dup
        · rw [if_pos hd]
          constructor
          · exact Or.inl
          · rintro (h | rfl)
            · exact h
            · exact hd
        · rw [if_neg hd]
          simp
      rw [hdup]
      constructor
      · rintro ((h | rfl) | ⟨h1, h2⟩ | h)
        · exact Or.inl h
        · exact Or.inr (Or.inl ⟨hs, by simp⟩)
        · exact Or.inr (Or.inl ⟨h1, by simp [h2]⟩)
        · right; right; rw [List.count_cons]; omega
      · rintro (h | ⟨h1, h2⟩ | h)
        · exact Or.inl (Or.inl h)
        · rcases List.mem_cons.mp h2 with rfl | h2
          · exact Or.inl (Or.inr rfl)
          · exact Or.inr (Or.inl ⟨h1, h2⟩)
        · by_cases hxa : x = a
          · exact Or.inl (Or.inr hxa)
          · right; right
            rw [List.count_cons, if_neg (by simpa using Ne.symm hxa)] at h
            omega
    · rw [if_neg hs, ih]
      constructor
      · rintro (h | ⟨h1, h2⟩ | h)
        · exact Or.inl h
        · rcases List.mem_append.mp h1 with h1 | h1
          · exact Or.inr (Or.inl ⟨h1, by simp [h2]⟩)
          · right; right
            have hxa : x = a := by simpa using h1
            subst hxa
            rw [List.count_cons, if_pos (by simp)]
            have : 0 < rest.count x := List.count_pos_iff.mpr h2
            omega
        · right; right; rw [List.count_cons]; omega
      · rintro (h | ⟨h1, h2⟩ | h)
        · exact Or.inl h
        · rcases List.mem_cons.mp h2 with rfl | h2
          · exact absurd h1 hs
          · exact Or.inr (Or.inl ⟨List.mem_append.mpr (Or.inl h1), h2⟩)
        · by_cases hxa : x = a
          · subst hxa
            rw [List.count_cons, if_pos (by simp)] at h
            have hmem : x ∈ rest := List.count_pos_iff.mp (by omega)
            exact Or.inr (Or.inl ⟨List.mem_append.mpr (Or.inr (by simp)), hmem⟩)
          · right; right
            rw [List.count_cons, if_neg (by simpa using Ne.symm hxa)] at h
            omega

theorem mem_duplicatesInArray {arr : List String} {x : String} :
    x ∈ duplicatesInArray arr ↔ 2 ≤ arr.count x := by
  rw [duplicatesInArray, dup_go_mem]
  simp

theorem dup_go_nodup : ∀ (arr seen dup : List String), dup.Nodup →
    (duplicatesInArray.go arr seen dup).Nodup := by
  intro arr
  induction arr with
  | nil => intro seen dup h; simpa [duplicatesInArray.go] using h
  | cons a rest ih =>
    intro seen dup h
    rw [duplicatesInArray.go]
    by_cases hs : a ∈ seen
    · rw [if_pos hs]
      apply ih
      by_cases hd : a ∈ dup
      · rwa [if_pos hd]
      · rw [if_neg hd]
        rw [List.nodup_append]
        refine ⟨h, List.nodup_singleton a, ?_⟩
        intro y hy hya
        have : y = a := by simpa using hya
        subst this
        exact hd hy
    · rw [if_neg hs]
      exact ih _ _ h

theorem duplicatesInArray_nodup (arr : List String) : (duplicatesInArray arr).Nodup :=
  dup_go_nodup arr [] [] List.nodup_nil

theorem duplicatesInArray_eq_nil_of_nodup {arr : List String} (h : arr.Nodup) :
    duplicatesInArray arr = [] := by
  rcases heq : duplicatesInArray arr with _ | ⟨x, l⟩
  · rfl
  · have hx : x ∈ duplicatesInArray arr := by rw [heq]; simp
    rw [mem_duplicatesInArray] at hx
    have := List.nodup_iff_count_le_one.mp h x
    omega

/-! ### The global cell index and document insertion -/

theorem mem_packTriples {t : String × String × String} {pid : String} {p : PackDoc} :
    t ∈ packTriples pid p ↔ ∃ m ∈ p.modules, ∃ c ∈ m.2, t = (c, pid, m.1) := by
  constructor
  · intro h
    obtain ⟨m, hm, hmt⟩ := List.mem_flatMap.mp h
    obtain ⟨c, hcm, rfl⟩ := List.mem_map.mp hmt
    exact ⟨m, hm, c, hcm, rfl⟩
  · rintro ⟨m, hm, c, hcm, rfl⟩
    exact List.mem_flatMap.mpr ⟨m, hm, List.mem_map.mpr ⟨c, hcm, rfl⟩⟩

theorem packTriples_pid {t : String × String × String} {pid : String} {p : PackDoc}
    (h : t ∈ packTriples pid p) : t.2.1 = pid := by
  obtain ⟨m, _, c, _, rfl⟩ := mem_packTriples.mp h
  rfl

theorem mem_allCellTriples {db : BatteryDB} {t : String × String × String} :
    t ∈ allCellTriples db ↔ ∃ e ∈ db.packs, t ∈ packTriples e.1 e.2 := by
  simp [allCellTriples]

theorem getAllCells_eq_none {db : BatteryDB} {c : String} :
    getAllCells db c = none ↔ ∀ t ∈ allCellTriples db, t.1 ≠ c := by
  simp [getAllCells, List.find?_eq_none]

theorem conflictsOf_eq_nil {inp : GenInput} {db : BatteryDB} :
    conflictsOf inp db = [] ↔
      ∀ c ∈ m1Of inp ++ m2Of inp ++ m3Of inp, getAllCells db c = none := by
  rw [conflictsOf, List.filterMap_eq_nil_iff]
  constructor
  · intro h c hc
    have := h c hc
    simpa [Option.map_eq_none'] using this
  · intro h c hc
    simp only [Option.map_eq_none']
    exact h c hc

theorem mem_triples_insertPack {packs : List (String × PackDoc)} {cfg : Config}
    {s : String} {d : PackDoc} {t : String × String × String}
    (ht : t ∈ allCellTriples ⟨insertPack packs s d, cfg⟩) :
    t ∈ packTriples s d ∨ (t ∈ allCellTriples ⟨packs, cfg⟩ ∧ t.2.1 ≠ s) := by
  obtain ⟨e, he, hte⟩ := List.mem_flatMap.mp ht
  unfold insertPack at he
  by_cases hany : packs.any (fun e => e.1 == s)
  · rw [if_pos hany] at he
    obtain ⟨e0, he0, rfl⟩ := List.mem_map.mp he
    by_cases hkey : e0.1 == s
    · rw [if_pos hkey] at hte
      exact Or.inl hte
    · rw [if_neg hkey] at hte
      refine Or.inr ⟨List.mem_flatMap.mpr ⟨e0, he0, hte⟩, ?_⟩
      rw [packTriples_pid hte]
      simpa using hkey
  · rw [if_neg hany] at he
    rcases List.mem_append.mp he with he | he
    · refine Or.inr ⟨List.mem_flatMap.mpr ⟨e, he, hte⟩, ?_⟩
      rw [packTriples_pid hte]
      rw [List.any_eq_true] at hany
      push_neg at hany
      simpa using hany e he
    · have heq : e = (s, d) := by simpa using he
      subst heq
      exact Or.inl hte

/-! ### The freshly built modules record -/

theorem mem_entriesOf {inp : GenInput} {l : List String} (h : l ∈ entriesOf inp) :
    l = m1Of inp ∨ l = m2Of inp ∨ l = m3Of inp := by
  unfold entriesOf at h
  split_ifs at h <;> simp_all <;> tauto

theorem entriesOf_sublist (inp : GenInput) :
    List.Sublist (entriesOf inp) [m1Of inp, m2Of inp, m3Of inp] := by
  unfold entriesOf
  have h1 : List.Sublist (if (m1Of inp).length > 0 then [m1Of inp] else []) [m1Of inp] := by
    split <;> simp
  have h2 : List.Sublist (if (m2Of inp).length > 0 then [m2Of inp] else []) [m2Of inp] := by
    split <;> simp
  have h3 : List.Sublist (if (m3Of inp).length > 0 then [m3Of inp] else []) [m3Of inp] := by
    split <;> simp
  simpa using (h1.append h2).append h3

theorem payloadsDisjoint_pairwise {inp : GenInput} (h : payloadsDisjoint inp) :
    (entriesOf inp).Pairwise List.Disjoint := by
  apply List.Pairwise.sublist (entriesOf_sublist inp)
  obtain ⟨h12, h13, h23⟩ := h
  refine List.Pairwise.cons ?_ (List.Pairwise.cons ?_ (List.Pairwise.cons ?_ List.Pairwise.nil))
  · intro l hl
    rcases List.mem_cons.mp hl with rfl | hl
    · exact fun a ha hb => h12 a ha hb
    · have h3 : l = m3Of inp := by simpa using hl
      subst h3
      exact fun a ha hb => h13 a ha hb
  · intro l hl
    have h3 : l = m3Of inp := by simpa using hl
    subst h3
    exact fun a ha hb => h23 a ha hb
  · intro l hl
    simp at hl

theorem mem_zipWith_pair : ∀ {es : List (List String)} {ids : List String}
    {p : String × List String},
    p ∈ List.zipWith (fun cells id => (id, cells)) es ids → p.1 ∈ ids ∧ p.2 ∈ es
  | [], _, _, h => by simp at h
  | _ :: _, [], _, h => by simp at h
  | e :: es, i :: ids, p, h => by
    rcases List.mem_cons.mp (by simpa [List.zipWith] using h) with rfl | h
    · exact ⟨by simp, by simp⟩
    · obtain ⟨h1, h2⟩ := mem_zipWith_pair h
      exact ⟨by simp [h1], by simp [h2]⟩

theorem zip_disjoint_unique : ∀ {es : List (List String)} {ids : List String},
    es.Pairwise List.Disjoint →
    ∀ {p1 p2 : String × List String},
      p1 ∈ List.zipWith (fun cells id => (id, cells)) es ids →
      p2 ∈ List.zipWith (fun cells id => (id, cells)) es ids →
      ∀ {c : String}, c ∈ p1.2 → c ∈ p2.2 → p1 = p2
  | [], _, _, _, _, h1, _, _, _, _ => by simp at h1
  | _ :: _, [], _, _, _, h1, _, _, _, _ => by simp at h1
  | e :: es, i :: ids, hpw, p1, p2, h1, h2, c, hc1, hc2 => by
    obtain ⟨hd, htl⟩ := List.pairwise_cons.mp hpw
    rcases List.mem_cons.mp (by simpa [List.zipWith] using h1) with rfl | h1 <;>
      rcases List.mem_cons.mp (by simpa [List.zipWith] using h2) with rfl | h2
    · rfl
    · exact (hd p2.2 (mem_zipWith_pair h2).2 hc1 hc2).elim
    · exact (hd p1.2 (mem_zipWith_pair h1).2 hc2 hc1).elim
    · exact zip_disjoint_unique htl h1 h2 hc1 hc2

theorem packTriples_build_unique {s : String} {d : PackDoc} {inp : GenInput}
    {ids : List String} (hmod : d.modules = buildModules ids inp)
    (hdisj : payloadsDisjoint inp) :
    ∀ t1 ∈ packTriples s d, ∀ t2 ∈ packTriples s d, t1.1 = t2.1 → t1.2 = t2.2 := by
  intro t1 ht1 t2 ht2 hc
  obtain ⟨mp1, hm1, c1, hc1, rfl⟩ := mem_packTriples.mp ht1
  obtain ⟨mp2, hm2, c2, hc2, rfl⟩ := mem_packTriples.mp ht2
  simp only at hc
  subst hc
  rw [hmod, buildModules] at hm1 hm2
  have := zip_disjoint_unique (payloadsDisjoint_pairwise hdisj) hm1 hm2 hc1 hc2
  rw [this]

theorem packTriples_build_cells {s : String} {d : PackDoc} {inp : GenInput}
    {ids : List String} (hmod : d.modules = buildModules ids inp) :
    ∀ t ∈ packTriples s d, t.1 ∈ m1Of inp ++ m2Of inp ++ m3Of inp := by
  intro t ht
  obtain ⟨m, hm, c, hcm, rfl⟩ := mem_packTriples.mp ht
  rw [hmod, buildModules] at hm
  have hmem := (mem_zipWith_pair hm).2
  rcases mem_entriesOf hmem with h | h | h <;> simp [← h, hcm]

theorem cellUnique_insert {db : BatteryDB} {s : String} {d : PackDoc}
    (hu : cellUnique db)
    (hnew : ∀ t1 ∈ packTriples s d, ∀ t2 ∈ packTriples s d, t1.1 = t2.1 → t1.2 = t2.2)
    (hfresh : ∀ t ∈ packTriples s d, getAllCells db t.1 = none) :
    cellUnique ⟨insertPack db.packs s d, db.config⟩ := by
  intro t1 ht1 t2 ht2 hc
  have hdbtri : allCellTriples ⟨db.packs, db.config⟩ = allCellTriples db := rfl
  rcases mem_triples_insertPack ht1 with h1 | ⟨h1, h1s⟩ <;>
    rcases mem_triples_insertPack ht2 with h2 | ⟨h2, h2s⟩
  · exact hnew t1 h1 t2 h2 hc
  · exact absurd hc.symm (getAllCells_eq_none.mp (hfresh t1 h1) t2 (hdbtri ▸ h2))
  · exact absurd hc (getAllCells_eq_none.mp (hfresh t2 h2) t1 (hdbtri ▸ h1))
  · exact hu t1 (hdbtri ▸ h1) t2 (hdbtri ▸ h2) hc

/-! ### Lookup after insertion and deletion -/

theorem find?_insertPack_replace (id : String) (d : PackDoc)
    (packs : List (String × PackDoc)) :
    (packs.map (fun e => if e.1 == id then (id, d) else e)).find? (fun e => e.1 == id) =
      (packs.find? (fun e => e.1 == id)).map (fun _ => (id, d)) := by
  induction packs with
  | nil => rfl
  | cons e rest ih =>
    by_cases he : (e.1 == id) = true
    · rw [List.map_cons, if_pos he]
      simp [List.find?_cons, he]
    · have he' : (e.1 == id) = false := by simpa using he
      rw [List.map_cons, if_neg he]
      simp only [List.find?_cons, he']
      exact ih

theorem lookupPack_insertPack_self (packs : List (String × PackDoc)) (cfg : Config)
    (id : String) (d : PackDoc) :
    lookupPack ⟨insertPack packs id d, cfg⟩ id = some d := by
  unfold lookupPack insertPack
  by_cases hany : packs.any (fun e => e.1 == id)
  · rw [if_pos hany]
    simp only [find?_insertPack_replace]
    obtain ⟨e, he, hpe⟩ := List.any_eq_true.mp hany
    rcases hfind : packs.find? (fun e => e.1 == id) with _ | e0
    · rw [List.find?_eq_none] at hfind
      exact absurd hpe (hfind e he)
    · simp [hfind]
  · rw [if_neg hany]
    rw [List.find?_append]
    have hnone : packs.find? (fun e => e.1 == id) = none := by
      rw [List.find?_eq_none]
      intro e he hpe
      exact hany (List.any_eq_true.mpr ⟨e, he, hpe⟩)
    simp [hnone]

theorem find?_insertPack_replace_ne (id k : String) (d : PackDoc) (hk : k ≠ id)
    (packs : List (String × PackDoc)) :
    (packs.map (fun e => if e.1 == id then (id, d) else e)).find? (fun e => e.1 == k) =
      packs.find? (fun e => e.1 == k) := by
  induction packs with
  | nil => rfl
  | cons e rest ih =>
    by_cases he : (e.1 == id) = true
    · have hidk : ((((id, d) : String × PackDoc)).1 == k) = false := by
        simp only [beq_eq_false_iff_ne, ne_eq]
        exact fun h => hk h.symm
      have hek : (e.1 == k) = false := by
        simp only [beq_iff_eq] at he
        simp only [beq_eq_false_iff_ne, ne_eq, he]
        exact fun h => hk h.symm
      rw [List.map_cons, if_pos he]
      simp only [List.find?_cons, hidk, hek]
      exact ih
    · rw [List.map_cons, if_neg he]
      by_cases hek : (e.1 == k) = true
      · simp [List.find?_cons, hek]
      · have hek' : (e.1 == k) = false := by simpa using hek
        simp only [List.find?_cons, hek']
        exact ih

theorem lookupPack_insertPack_ne (packs : List (String × PackDoc)) (cfg : Config)
    (id k : String) (d : PackDoc) (hk : k ≠ id) :
    lookupPack ⟨insertPack packs id d, cfg⟩ k = lookupPack ⟨packs, cfg⟩ k := by
  unfold lookupPack insertPack
  by_cases hany : packs.any (fun e => e.1 == id)
  · rw [if_pos hany, find?_insertPack_replace_ne id k d hk packs]
  · rw [if_neg hany, List.find?_append]
    have hsing : ([((id, d) : String × PackDoc)].find? (fun e => e.1 == k)) = none := by
      rw [List.find?_eq_none]
      intro x hx
      have hx' : x = (id, d) := by simpa using hx
      subst hx'
      simp only [beq_iff_eq]
      exact fun h => hk h.symm
    simp [hsing]

theorem mem_triples_filter {db : BatteryDB} {pid : String} {t : String × String × String}
    (ht : t ∈ allCellTriples ⟨db.packs.filter (fun e => e.1 ≠ pid), db.config⟩) :
    t ∈ allCellTriples db ∧ t.2.1 ≠ pid := by
  obtain ⟨e, he, hte⟩ := List.mem_flatMap.mp ht
  obtain ⟨he', hcond⟩ := List.mem_filter.mp he
  refine ⟨List.mem_flatMap.mpr ⟨e, he', hte⟩, ?_⟩
  rw [packTriples_pid hte]
  exact of_decide_eq_true hcond

/-! ### Branch behaviour of the allocation engine -/

theorem generatePack_intraDup {inp : GenInput} {now : DateInfo} {bundle : Option CodeBundle}
    {db : BatteryDB} (hreq : requiredOk inp db.config) (hdup : ¬ dupsOk inp) :
    generatePack inp now bundle db =
      (.intraDup (duplicatesInArray (m1Of inp)) (duplicatesInArray (m2Of inp))
        (duplicatesInArray (m3Of inp)), db) := by
  obtain ⟨h1, h2, h3⟩ := hreq
  have hd : duplicatesInArray (m1Of inp) ≠ [] ∨ duplicatesInArray (m2Of inp) ≠ [] ∨
      duplicatesInArray (m3Of inp) ≠ [] := by
    by_contra hcon
    push_neg at hcon
    exact hdup ⟨hcon.1, hcon.2.1, hcon.2.2⟩
  simp only [generatePack]
  rw [if_neg h1, if_neg h2, if_neg h3, if_pos hd]

theorem generatePack_packExists {inp : GenInput} {now : DateInfo}
    {bundle : Option CodeBundle} {db : BatteryDB}
    (hreq : requiredOk inp db.config) (hdup : dupsOk inp)
    (hsome : (lookupPack db (resolvedSerial inp now db)).isSome = true)
    (how : inp.overwrite = false) :
    generatePack inp now bundle db = (.packExists, db) := by
  obtain ⟨h1, h2, h3⟩ := hreq
  obtain ⟨d1, d2, d3⟩ := hdup
  simp only [generatePack]
  rw [if_neg h1, if_neg h2, if_neg h3, if_neg (by simp [d1, d2, d3]), if_pos ⟨hsome, how⟩]

theorem generatePack_valid {inp : GenInput} {now : DateInfo} {db : BatteryDB} (b : CodeBundle)
    (hreq : requiredOk inp db.config) (hdup : dupsOk inp)
    (hex : ¬((lookupPack db (resolvedSerial inp now db)).isSome = true ∧
      inp.overwrite = false))
    (hconf : conflictsOf inp db = []) :
    generatePack inp now (some b) db =
      (.ok (builtPack inp now db (buildCodes b (builtModulesOf inp now db))),
       { db with packs := (insertPack db.packs (resolvedSerial inp now db) (builtPack inp now db (buildCodes b (builtModulesOf inp now db)))) }) := by
  obtain ⟨h1, h2, h3⟩ := hreq
  obtain ⟨d1, d2, d3⟩ := hdup
  simp only [generatePack]
  rw [if_neg h1, if_neg h2, if_neg h3, if_neg (by simp [d1, d2, d3]), if_neg hex,
    if_neg (by simp [hconf])]
  rfl

theorem generatePack_ok_inv {inp : GenInput} {now : DateInfo} {bundle : Option CodeBundle}
    {db : BatteryDB} {d : PackDoc} {db2 : BatteryDB}
    (h : generatePack inp now bundle db = (.ok d, db2)) :
    requiredOk inp db.config ∧ dupsOk inp ∧
      ¬((lookupPack db (resolvedSerial inp now db)).isSome = true ∧
        inp.overwrite = false) ∧
      conflictsOf inp db = [] ∧
      d.modules = builtModulesOf inp now db ∧
      d.pack_serial = resolvedSerial inp now db ∧
      db2 = { db with packs := insertPack db.packs (resolvedSerial inp now db) d } := by
  simp only [generatePack] at h
  split_ifs at h with h1 h2 h3 h4 h5 h6
  · simp at h
  · simp at h
  · simp at h
  · simp at h
  · simp at h
  · simp at h
  · cases bundle with
    | none => simp at h
    | some b =>
      simp only [Prod.mk.injEq, GenResult.ok.injEq] at h
      obtain ⟨hrec, hdb⟩ := h
      push_neg at h4
      subst hrec
      subst hdb
      exact ⟨⟨h1, h2, h3⟩, ⟨h4.1, h4.2.1, h4.2.2⟩, h5, not_not.mp h6, rfl, rfl, rfl⟩

theorem savePackOnly_valid {inp : GenInput} {now : DateInfo} {db : BatteryDB}
    (hreq : requiredOk inp db.config) (hdup : dupsOk inp)
    (hex : ¬((lookupPack db (resolvedSerial inp now db)).isSome = true ∧
      inp.overwrite = false))
    (hconf : conflictsOf inp db = []) :
    savePackOnly inp now db =
      (.ok (builtPack inp now db [("master", "")]),
       { db with packs := (insertPack db.packs (resolvedSerial inp now db) (builtPack inp now db [("master", "")])) }) := by
  obtain ⟨h1, h2, h3⟩ := hreq
  obtain ⟨d1, d2, d3⟩ := hdup
  simp only [savePackOnly]
  rw [if_neg h1, if_neg h2, if_neg h3, if_neg (by simp [d1, d2, d3]), if_neg hex,
    if_neg (by simp [hconf])]
  rfl

theorem savePackOnly_ok_inv {inp : GenInput} {now : DateInfo} {db : BatteryDB}
    {d : PackDoc} {db2 : BatteryDB}
    (h : savePackOnly inp now db = (.ok d, db2)) :
    requiredOk inp db.config ∧ dupsOk inp ∧
      ¬((lookupPack db (resolvedSerial inp now db)).isSome = true ∧
        inp.overwrite = false) ∧
      conflictsOf inp db = [] ∧
      d.modules = builtModulesOf inp now db ∧
      d.pack_serial = resolvedSerial inp now db ∧
      db2 = { db with packs := insertPack db.packs (resolvedSerial inp now db) d } := by
  simp only [savePackOnly] at h
  split_ifs at h with h1 h2 h3 h4 h5 h6
  · simp at h
  · simp at h
  · simp at h
  · simp at h
  · simp at h
  · simp at h
  · simp only [Prod.mk.injEq, GenResult.ok.injEq] at h
    obtain ⟨hrec, hdb⟩ := h
    push_neg at h4
    subst hrec
    subst hdb
    exact ⟨⟨h1, h2, h3⟩, ⟨h4.1, h4.2.1, h4.2.2⟩, h5, not_not.mp h6, rfl, rfl, rfl⟩

/-! ### The pack-serial scheme: loop versus spec-side maximum -/

theorem packUnitStep_eq (pref : String) (a : Nat) (id : String) :
    packUnitStep pref a id =
      match specUnitOf pref id with
      | some v => max a v
      | none => a := by
  unfold packUnitStep specUnitOf
  by_cases h1 : strStartsWith id pref = true
  · rw [if_pos h1]
    by_cases h2 : (strDrop id pref.length).length = 4 ∧ strAllDigits (strDrop id pref.length) = true
    · rw [if_pos h2, if_pos ⟨h1, h2.1, h2.2⟩]
    · rw [if_neg h2, if_neg (by tauto)]
  · rw [if_neg h1, if_neg (by tauto)]

theorem foldl_packUnitStep (pref : String) :
    ∀ (l : List String) (a : Nat),
      l.foldl (packUnitStep pref) a = (l.filterMap (specUnitOf pref)).foldl max a := by
  intro l
  induction l with
  | nil => intro a; rfl
  | cons id rest ih =>
    intro a
    rw [List.foldl_cons, packUnitStep_eq, List.filterMap_cons]
    cases h : specUnitOf pref id with
    | none => exact ih a
    | some v => exact ih (max a v)

/-! ### Module counts -/

theorem entriesOf_length (inp : GenInput) :
    (entriesOf inp).length = providedCountOf inp := by
  unfold entriesOf providedCountOf
  split_ifs <;> simp

theorem requiredCountOf_pos (cfg : Config) : 1 ≤ requiredCountOf cfg := by
  unfold requiredCountOf
  split_ifs <;> omega

theorem desiredCountOf_pos (inp : GenInput) (cfg : Config) :
    1 ≤ desiredCountOf inp cfg := by
  unfold desiredCountOf
  split_ifs with h
  · omega
  · exact requiredCountOf_pos cfg

theorem providedCount_pos_of_m1 {inp : GenInput} (h : m1Of inp ≠ []) :
    0 < providedCountOf inp := by
  unfold providedCountOf
  rw [if_pos (List.length_pos.mpr h)]
  omega

theorem builtModulesOf_length {inp : GenInput} {now : DateInfo} {db : BatteryDB}
    (hprov : 0 < providedCountOf inp) :
    (builtModulesOf inp now db).length = desiredCountOf inp db.config := by
  unfold builtModulesOf buildModules
  rw [List.length_zipWith, entriesOf_length, allocateModuleIds_length]
  unfold desiredCountOf
  rw [if_pos hprov]
  simp

/-! ## The claims -/

/-- C2: for every Fleet Document and configuration, `nextPackSerial`
returns the prefix `RIV` + 2-digit year + 2-digit month + model code +
3-digit left-padded batch code (that is `packPrefix`) followed by the
4-left-padded counter equal to one plus the maximum four-digit unit
counter among pack serials of the document sharing that prefix; the
counter is 1 when no such pack exists; and a pack serial whose suffix
after the prefix is not exactly four digits is ignored — appending such
a pack never changes (in particular never regresses) the result. -/
theorem claim2_nextPackSerial (now : DateInfo) (db : BatteryDB)
    (badId : String) (bad : PackDoc)
    (hbad : specUnitOf (packPrefix now db.config) badId = none) :
    nextPackSerial now db =
      packPrefix now db.config ++ padStart (natToString (specMaxUnit now db + 1)) 4 '0' ∧
    ((db.packs.map (·.1)).filterMap (specUnitOf (packPrefix now db.config)) = [] →
      nextPackSerial now db =
        packPrefix now db.config ++ padStart (natToString 1) 4 '0') ∧
    nextPackSerial now ⟨db.packs ++ [(badId, bad)], db.config⟩ = nextPackSerial now db := by
  refine ⟨?_, ?_, ?_⟩
  · simp only [nextPackSerial, specMaxUnit]
    rw [foldl_packUnitStep]
  · intro hnil
    simp only [nextPackSerial, specMaxUnit]
    rw [foldl_packUnitStep, hnil]
    rfl
  · simp only [nextPackSerial]
    rw [List.map_append, List.foldl_append]
    simp only [List.map_cons, List.map_nil, List.foldl_cons, List.foldl_nil]
    rw [packUnitStep_eq, hbad]

/-- Witness for C2 at a concrete document: one conforming serial with
counter 7 and one non-conforming hypothesis instance. -/
theorem claim2_witness :
    nextPackSerial ⟨5, 10, 1, "T"⟩
      ⟨[("RIV510LFP90010007", ⟨"x", "t", none, [], []⟩)], ⟨"LFP9", "001", ⟨true, true, false⟩⟩⟩ =
      "RIV510LFP90010008" :=
  ((claim2_nextPackSerial ⟨5, 10, 1, "T"⟩
      ⟨[("RIV510LFP90010007", ⟨"x", "t", none, [], []⟩)], ⟨"LFP9", "001", ⟨true, true, false⟩⟩⟩
      "Z" ⟨"z", "t", none, [], []⟩ (by decide)).1).trans (by decide)

/-- C3: for every document and count in {1,2,3}, `allocateModuleIds`
returns exactly `count` pairwise-distinct module serials, none of which
is already a module key of any pack in the document. -/
theorem claim3_module_freshness (now : DateInfo) (db : BatteryDB) (count : Nat)
    (_hc : count = 1 ∨ count = 2 ∨ count = 3) :
    (allocateModuleIds now db count).length = count ∧
    (allocateModuleIds now db count).Nodup ∧
    ∀ id ∈ allocateModuleIds now db count, ∀ e ∈ db.packs, ∀ m ∈ e.2.modules, m.1 ≠ id := by
  refine ⟨allocateModuleIds_length now db count, allocateModuleIds_nodup now db count, ?_⟩
  intro id hid e he m hm heq
  exact allocateModuleIds_fresh now db count id hid (mem_getAllModuleIds.mpr ⟨e, he, m, hm, heq⟩)

/-- Witness for C3 at a concrete document already holding one module
serial under today's prefix. -/
theorem claim3_witness :
    (allocateModuleIds exNow
        ⟨[("P1", ⟨"P1", "T", none, [("MLFP01500001", ["X"])], []⟩)], exCfg⟩ 2).length = 2 ∧
    (allocateModuleIds exNow
        ⟨[("P1", ⟨"P1", "T", none, [("MLFP01500001", ["X"])], []⟩)], exCfg⟩ 2).Nodup ∧
    ∀ id ∈ allocateModuleIds exNow
        ⟨[("P1", ⟨"P1", "T", none, [("MLFP01500001", ["X"])], []⟩)], exCfg⟩ 2,
      ∀ e ∈ (⟨[("P1", ⟨"P1", "T", none, [("MLFP01500001", ["X"])], []⟩)], exCfg⟩ : BatteryDB).packs,
        ∀ m ∈ e.2.modules, m.1 ≠ id :=
  claim3_module_freshness exNow
    ⟨[("P1", ⟨"P1", "T", none, [("MLFP01500001", ["X"])], []⟩)], exCfg⟩ 2 (by decide)

/-- C4: when label generation fails (`generateCodes` throws, modelled
as the `none` bundle), `generatePack` leaves the Fleet Document exactly
as it was and creates no pack record. -/
theorem claim4_label_failure_atomic (inp : GenInput) (now : DateInfo) (db : BatteryDB) :
    (generatePack inp now none db).2 = db ∧
    ∀ d, (generatePack inp now none db).1 ≠ .ok d := by
  simp only [generatePack]
  split_ifs <;> simp

/-- C6: intra-module duplicates are checked before pack existence,
which is checked before the cross-fleet collision scan, and the first
failing check short-circuits: a duplicate submission is rejected as
`intraDup` whatever the document holds, and a submission to an existing
serial without overwrite is rejected as `packExists` even when its
cells would also collide with cells stored in other packs. -/
theorem claim6_validation_order (inp : GenInput) (now : DateInfo)
    (bundle : Option CodeBundle) (db : BatteryDB) :
    (requiredOk inp db.config → ¬ dupsOk inp →
      generatePack inp now bundle db =
        (.intraDup (duplicatesInArray (m1Of inp)) (duplicatesInArray (m2Of inp))
          (duplicatesInArray (m3Of inp)), db)) ∧
    (requiredOk inp db.config → dupsOk inp →
      (lookupPack db (resolvedSerial inp now db)).isSome = true →
      inp.overwrite = false → conflictsOf inp db ≠ [] →
      generatePack inp now bundle db = (.packExists, db)) :=
  ⟨fun hreq hdup => generatePack_intraDup hreq hdup,
   fun hreq hdup hsome how _ => generatePack_packExists hreq hdup hsome how⟩

/-- Witness for C6: a duplicate submission to an existing serial is
rejected as `intraDup`; a clean submission to an existing serial whose
cell collides with that pack's stored cell is rejected as `packExists`. -/
theorem claim6_witness :
    generatePack ⟨some "P1", false, none, some (.arr ["A", "A"]), none, none⟩ exNow none exDB =
      (.intraDup ["A"] [] [], exDB) ∧
    generatePack ⟨some "P1", false, none, some (.arr ["B"]), none, none⟩ exNow none exDB =
      (.packExists, exDB) :=
  ⟨((claim6_validation_order ⟨some "P1", false, none, some (.arr ["A", "A"]), none, none⟩
      exNow none exDB).1 (by decide) (by decide)).trans (by decide),
   (claim6_validation_order ⟨some "P1", false, none, some (.arr ["B"]), none, none⟩
      exNow none exDB).2 (by decide) (by decide) (by decide) rfl (by decide)⟩

/-- C7: `duplicatesInArray` returns exactly the set of elements
occurring more than once in its input, each reported once;
`["A","B","A"]` yields `["A"]`; a duplicate-free list yields `[]`; and
a submission failing this check is rejected with the per-module
duplicate listings. -/
theorem claim7_duplicates (arr : List String) :
    (∀ x, x ∈ duplicatesInArray arr ↔ 2 ≤ arr.count x) ∧
    (duplicatesInArray arr).Nodup ∧
    duplicatesInArray ["A", "B", "A"] = ["A"] ∧
    (arr.Nodup → duplicatesInArray arr = []) ∧
    (∀ inp now bundle (db : BatteryDB), requiredOk inp db.config → ¬ dupsOk inp →
      generatePack inp now bundle db =
        (.intraDup (duplicatesInArray (m1Of inp)) (duplicatesInArray (m2Of inp))
          (duplicatesInArray (m3Of inp)), db)) :=
  ⟨fun _ => mem_duplicatesInArray, duplicatesInArray_nodup arr, by decide,
   fun h => duplicatesInArray_eq_nil_of_nodup h,
   fun inp now bundle db hreq hdup => generatePack_intraDup hreq hdup⟩

/-- Witness for C7: a duplicate-free list passes; a duplicated module-1
list is rejected with its duplicate listing. -/
theorem claim7_witness :
    duplicatesInArray ["A", "B", "C"] = [] ∧
    generatePack ⟨some "P1", false, none, some (.arr ["A", "A"]), none, none⟩ exNow none
      exEmptyDB = (.intraDup ["A"] [] [], exEmptyDB) :=
  ⟨(claim7_duplicates ["A", "B", "C"]).2.2.2.1 (by decide),
   ((claim7_duplicates []).2.2.2.2 ⟨some "P1", false, none, some (.arr ["A", "A"]), none, none⟩
      exNow none exEmptyDB (by decide) (by decide)).trans (by decide)⟩

/-- C5 counterexample: the claim is false as stated — a submission to
an existing pack serial without overwrite whose module-1 list has an
internal duplicate receives the duplicate rejection, not the
pack-exists rejection (the duplicate check runs first). -/
theorem claim5_counterexample :
    (lookupPack exDB "P1").isSome = true ∧
    resolvedSerial ⟨some "P1", false, none, some (.arr ["A", "A"]), none, none⟩ exNow exDB =
      "P1" ∧
    (generatePack ⟨some "P1", false, none, some (.arr ["A", "A"]), none, none⟩ exNow none
      exDB).1 ≠ .packExists ∧
    (generatePack ⟨some "P1", false, none, some (.arr ["A", "A"]), none, none⟩ exNow none
      exDB).1 = .intraDup ["A"] [] [] := by
  refine ⟨by decide, by decide, by decide, by decide⟩

/-- C5 (amended): for every submission passing the required-payload and
intra-module duplicate checks whose resolved serial already has a
record: without overwrite the engine returns the pack-exists rejection
and the document is unchanged; with overwrite and no cell collisions
the existing record is replaced by the newly built record. -/
theorem claim5_overwrite_semantics (inp : GenInput) (now : DateInfo) (db : BatteryDB)
    (b : CodeBundle) (p : PackDoc)
    (hreq : requiredOk inp db.config) (hdup : dupsOk inp)
    (hex : lookupPack db (resolvedSerial inp now db) = some p) :
    (inp.overwrite = false →
      ∀ bundle, generatePack inp now bundle db = (.packExists, db)) ∧
    (inp.overwrite = true → conflictsOf inp db = [] →
      generatePack inp now (some b) db =
        (.ok (builtPack inp now db (buildCodes b (builtModulesOf inp now db))),
         { db with packs := (insertPack db.packs (resolvedSerial inp now db) (builtPack inp now db (buildCodes b (builtModulesOf inp now db)))) }) ∧
      lookupPack (generatePack inp now (some b) db).2 (resolvedSerial inp now db) =
        some (builtPack inp now db (buildCodes b (builtModulesOf inp now db)))) := by
  constructor
  · intro how bundle
    exact generatePack_packExists hreq hdup (by simp [hex]) how
  · intro how hconf
    have heq := @generatePack_valid inp now db b hreq hdup (by simp [how]) hconf
    refine ⟨heq, ?_⟩
    rw [heq]
    exact lookupPack_insertPack_self db.packs db.config _ _

/-- Witness for C5: a clean submission to the existing serial `P1` is
rejected without overwrite, and with overwrite the record is replaced
by the newly built one. -/
theorem claim5_witness :
    generatePack ⟨some "P1", false, none, some (.arr ["A"]), none, none⟩ exNow none exDB =
      (.packExists, exDB) ∧
    lookupPack (generatePack ⟨some "P1", true, none, some (.arr ["A"]), none, none⟩ exNow
        (some exBundle) exDB).2
      (resolvedSerial ⟨some "P1", true, none, some (.arr ["A"]), none, none⟩ exNow exDB) =
      some (builtPack ⟨some "P1", true, none, some (.arr ["A"]), none, none⟩ exNow exDB
        (buildCodes exBundle
          (builtModulesOf ⟨some "P1", true, none, some (.arr ["A"]), none, none⟩ exNow exDB))) :=
  ⟨(claim5_overwrite_semantics ⟨some "P1", false, none, some (.arr ["A"]), none, none⟩ exNow
      exDB exBundle exPack (by decide) (by decide) (by decide)).1 rfl none,
   ((claim5_overwrite_semantics ⟨some "P1", true, none, some (.arr ["A"]), none, none⟩ exNow
      exDB exBundle exPack (by decide) (by decide) (by decide)).2 rfl (by decide)).2⟩

/-- C8: for every accepted submission the number of modules of the
created pack equals the number of non-empty normalized payloads
(which is then positive), for every configuration; the engine's desired
count falls back to the configuration's enabled-module count only when
no payload is non-empty (and m1-only, m1+m2, m1+m2+m3 configurations
imply required counts 1, 2 and 3 respectively). -/
theorem claim8_module_count (inp : GenInput) (now : DateInfo)
    (bundle : Option CodeBundle) (db : BatteryDB) (d : PackDoc)
    (h : (generatePack inp now bundle db).1 = .ok d) :
    0 < providedCountOf inp ∧
    d.modules.length = providedCountOf inp ∧
    d.modules.length = desiredCountOf inp db.config ∧
    desiredCountOf inp db.config =
      (if 0 < providedCountOf inp then providedCountOf inp else requiredCountOf db.config) ∧
    (db.config.modulesEnabled = ⟨true, true, true⟩ → requiredCountOf db.config = 3) ∧
    (db.config.modulesEnabled = ⟨true, true, false⟩ → requiredCountOf db.config = 2) ∧
    (db.config.modulesEnabled = ⟨true, false, false⟩ → requiredCountOf db.config = 1) := by
  rcases hres : generatePack inp now bundle db with ⟨r, db2⟩
  rw [hres] at h
  have hr : r = .ok d := h
  subst hr
  obtain ⟨hreq, _, _, _, hmod, _, _⟩ := generatePack_ok_inv hres
  have hm1 : m1Of inp ≠ [] := fun hnil => hreq.1 ⟨desiredCountOf_pos inp db.config, hnil⟩
  have hprov := providedCount_pos_of_m1 hm1
  have hlen : d.modules.length = desiredCountOf inp db.config := by
    rw [hmod]
    exact builtModulesOf_length hprov
  refine ⟨hprov, ?_, hlen, ?_, ?_, ?_, ?_⟩
  · rw [hlen]
    unfold desiredCountOf
    rw [if_pos hprov]
  · unfold desiredCountOf
    rfl
  · intro hcfg
    simp [requiredCountOf, hcfg]
  · intro hcfg
    simp [requiredCountOf, hcfg]
  · intro hcfg
    simp [requiredCountOf, hcfg]

/-- Witness for C8: a two-payload submission against a two-module
configuration creates a pack with exactly two modules. -/
theorem claim8_witness :
    0 < providedCountOf ⟨some "P1", false, none, some (.arr ["A"]), some (.arr ["B"]), none⟩ ∧
    (⟨"P1", "T", none, [("MLFP01500001", ["A"]), ("MLFP01500002", ["B"])],
      [("master", ""), ("MLFP01500001", ""), ("MLFP01500002", "")]⟩ : PackDoc).modules.length =
      2 := by
  have h := claim8_module_count ⟨some "P1", false, none, some (.arr ["A"]), some (.arr ["B"]), none⟩
    exNow (some exBundle) exEmptyDB
    ⟨"P1", "T", none, [("MLFP01500001", ["A"]), ("MLFP01500002", ["B"])],
      [("master", ""), ("MLFP01500001", ""), ("MLFP01500002", "")]⟩ (by decide)
  exact ⟨h.1, h.2.1.trans (by decide)⟩

/-- C10: `updatePack` on an existing pack succeeds for every modules
mapping whatsoever — no duplicate or collision validation of any kind
is applied to the new cell lists — and replaces only the `modules`
field of that pack: its serial, timestamps, creator and codes, every
other pack (looked up by any other key), and the configuration are all
unchanged. -/
theorem claim10_updatePack_frame (id : String) (mods : List (String × List String))
    (db : BatteryDB) (p : PackDoc) (hp : lookupPack db id = some p) :
    (updatePack id mods db).1 = true ∧
    lookupPack (updatePack id mods db).2 id = some { p with modules := mods } ∧
    (∀ k, k ≠ id → lookupPack (updatePack id mods db).2 k = lookupPack db k) ∧
    (updatePack id mods db).2.config = db.config ∧
    ({ p with modules := mods } : PackDoc).pack_serial = p.pack_serial ∧
    ({ p with modules := mods } : PackDoc).created_at = p.created_at ∧
    ({ p with modules := mods } : PackDoc).created_by = p.created_by ∧
    ({ p with modules := mods } : PackDoc).codes = p.codes := by
  unfold updatePack
  rw [hp]
  refine ⟨rfl, ?_, ?_, rfl, rfl, rfl, rfl, rfl⟩
  · exact lookupPack_insertPack_self db.packs db.config id _
  · intro k hk
    exact lookupPack_insertPack_ne db.packs db.config id k _ hk

/-- Witness for C10: updating `P1` to a modules mapping whose cell list
even contains an internal duplicate still succeeds and replaces only
the modules field. -/
theorem claim10_witness :
    (updatePack "P1" [("M1", ["Z", "Z"])] exDB).1 = true ∧
    lookupPack (updatePack "P1" [("M1", ["Z", "Z"])] exDB).2 "P1" =
      some ⟨"P1", "T", none, [("M1", ["Z", "Z"])], []⟩ := by
  have h := claim10_updatePack_frame "P1" [("M1", ["Z", "Z"])] exDB exPack (by decide)
  exact ⟨h.1, h.2.1.trans (by decide)⟩

/-- C1 counterexample: the claim is false as stated — starting from the
empty document (which trivially satisfies global cell uniqueness), a
submission listing the same cell serial `A` in two different module
payloads is accepted, and the resulting document holds `A` under two
different (pack, module) pairs: the engine checks duplicates only
within each module and collisions only against the stored document,
never across the sibling payloads of one submission. -/
theorem claim1_counterexample :
    cellUnique exEmptyDB ∧
    (generatePack ⟨some "P1", false, none, some (.arr ["A"]), some (.arr ["A"]), none⟩
      exNow (some exBundle) exEmptyDB).1.isOk = true ∧
    ¬ cellUnique (generatePack ⟨some "P1", false, none, some (.arr ["A"]), some (.arr ["A"]), none⟩
      exNow (some exBundle) exEmptyDB).2 := by
  refine ⟨by decide, by decide, by decide⟩

/-- C1 (amended): starting from a Fleet Document in which no cell
serial appears in two different (pack, module) pairs, every submission
accepted by `generatePack` or `savePackOnly` yields a document with the
same property, provided no cell serial appears in two different module
payloads of the submission (a condition the engine itself does not
check, as the counterexample shows). -/
theorem claim1_cell_uniqueness_preserved (inp : GenInput) (now : DateInfo)
    (bundle : Option CodeBundle) (db : BatteryDB)
    (hu : cellUnique db) (hdisj : payloadsDisjoint inp) :
    ((generatePack inp now bundle db).1.isOk = true →
      cellUnique (generatePack inp now bundle db).2) ∧
    ((savePackOnly inp now db).1.isOk = true →
      cellUnique (savePackOnly inp now db).2) := by
  constructor
  · intro hok
    rcases hres : generatePack inp now bundle db with ⟨r, db2⟩
    rw [hres] at hok
    show cellUnique db2
    cases r with
    | ok d =>
      obtain ⟨_, _, _, hconf, hmod, _, hdb2⟩ := generatePack_ok_inv hres
      simp only [builtModulesOf] at hmod
      rw [hdb2]
      refine cellUnique_insert hu (packTriples_build_unique hmod hdisj) ?_
      intro t ht
      exact conflictsOf_eq_nil.mp hconf t.1 (packTriples_build_cells hmod t ht)
    | validationError m => simp [GenResult.isOk] at hok
    | intraDup a b c => simp [GenResult.isOk] at hok
    | packExists => simp [GenResult.isOk] at hok
    | collision l => simp [GenResult.isOk] at hok
    | codesFailed => simp [GenResult.isOk] at hok
  · intro hok
    rcases hres : savePackOnly inp now db with ⟨r, db2⟩
    rw [hres] at hok
    show cellUnique db2
    cases r with
    | ok d =>
      obtain ⟨_, _, _, hconf, hmod, _, hdb2⟩ := savePackOnly_ok_inv hres
      simp only [builtModulesOf] at hmod
      rw [hdb2]
      refine cellUnique_insert hu (packTriples_build_unique hmod hdisj) ?_
      intro t ht
      exact conflictsOf_eq_nil.mp hconf t.1 (packTriples_build_cells hmod t ht)
    | validationError m => simp [GenResult.isOk] at hok
    | intraDup a b c => simp [GenResult.isOk] at hok
    | packExists => simp [GenResult.isOk] at hok
    | collision l => simp [GenResult.isOk] at hok
    | codesFailed => simp [GenResult.isOk] at hok

/-- Witness for C1: a concrete accepted submission with disjoint
payloads preserves uniqueness, through both engine variants. -/
theorem claim1_witness :
    cellUnique (generatePack ⟨some "P1", false, none, some (.arr ["A"]), some (.arr ["B"]), none⟩
      exNow (some exBundle) exEmptyDB).2 ∧
    cellUnique (savePackOnly ⟨some "P1", false, none, some (.arr ["A"]), some (.arr ["B"]), none⟩
      exNow exEmptyDB).2 :=
  ⟨(claim1_cell_uniqueness_preserved ⟨some "P1", false, none, some (.arr ["A"]), some (.arr ["B"]), none⟩
      exNow (some exBundle) exEmptyDB (by decide) (by decide)).1 (by decide),
   (claim1_cell_uniqueness_preserved ⟨some "P1", false, none, some (.arr ["A"]), some (.arr ["B"]), none⟩
      exNow (some exBundle) exEmptyDB (by decide) (by decide)).2 (by decide)⟩

/-- C9: deleting a pack frees its cells: if cell `c` occurred only in
pack `pid`, then after a successful `deletePack pid` the global cell
index no longer contains `c`, and a subsequent allocation submitting
`c` (to a fresh serial `s`) is accepted rather than rejected as a
collision. -/
theorem claim9_delete_frees (db : BatteryDB) (pid : String) (p : PackDoc) (c : String)
    (now : DateInfo) (b : CodeBundle) (s : String)
    (hp : lookupPack db pid = some p)
    (honly : ∀ t ∈ allCellTriples db, t.1 = c → t.2.1 = pid)
    (hctrim : strTrim c = c) (hcne : c ≠ "")
    (hfresh : lookupPack (deletePack pid db).2 s = none)
    (hstrim : strTrim s = s) (hsne : s ≠ "") :
    (deletePack pid db).1 = true ∧
    getAllCells (deletePack pid db).2 c = none ∧
    ∃ d db2, generatePack ⟨some s, false, none, some (.arr [c]), none, none⟩ now (some b)
      (deletePack pid db).2 = (.ok d, db2) := by
  have hcond : (lookupPack db pid).isSome = true := by rw [hp]; rfl
  have hdel : deletePack pid db =
      (true, ⟨db.packs.filter (fun e => e.1 ≠ pid), db.config⟩) := by
    unfold deletePack
    rw [if_pos hcond]
  have hnone : getAllCells (deletePack pid db).2 c = none := by
    rw [hdel]
    refine getAllCells_eq_none.mpr ?_
    intro t ht hteq
    obtain ⟨htdb, htpid⟩ := mem_triples_filter ht
    exact htpid (honly t htdb hteq)
  refine ⟨by rw [hdel], hnone, ?_⟩
  have hm1 : m1Of (⟨some s, false, none, some (.arr [c]), none, none⟩ : GenInput) = [c] := by
    simp only [m1Of, normalizeCells, List.map_cons, List.map_nil, hctrim, List.filter]
    rw [strIsEmpty_eq_false hcne]
    rfl
  have hm2 : m2Of (⟨some s, false, none, some (.arr [c]), none, none⟩ : GenInput) = [] := rfl
  have hm3 : m3Of (⟨some s, false, none, some (.arr [c]), none, none⟩ : GenInput) = [] := rfl
  have hdc : desiredCountOf (⟨some s, false, none, some (.arr [c]), none, none⟩ : GenInput)
      (deletePack pid db).2.config = 1 := by
    simp [desiredCountOf, providedCountOf, hm1, hm2, hm3]
  have hreq : requiredOk (⟨some s, false, none, some (.arr [c]), none, none⟩ : GenInput)
      (deletePack pid db).2.config := by
    refine ⟨fun hcon => ?_, fun hcon => ?_, fun hcon => ?_⟩
    · rw [hm1] at hcon
      exact absurd hcon.2 (by simp)
    · rw [hdc] at hcon
      omega
    · rw [hdc] at hcon
      omega
  have hdup : dupsOk (⟨some s, false, none, some (.arr [c]), none, none⟩ : GenInput) := by
    refine ⟨?_, rfl, rfl⟩
    rw [hm1]
    exact duplicatesInArray_eq_nil_of_nodup (List.nodup_singleton c)
  have hser : resolvedSerial (⟨some s, false, none, some (.arr [c]), none, none⟩ : GenInput)
      now (deletePack pid db).2 = s := by
    simp [resolvedSerial, hstrim, hsne]
  have hex : ¬((lookupPack (deletePack pid db).2
      (resolvedSerial (⟨some s, false, none, some (.arr [c]), none, none⟩ : GenInput) now
        (deletePack pid db).2)).isSome = true ∧
      (⟨some s, false, none, some (.arr [c]), none, none⟩ : GenInput).overwrite = false) := by
    rw [hser, hfresh]
    simp
  have hconf : conflictsOf (⟨some s, false, none, some (.arr [c]), none, none⟩ : GenInput)
      (deletePack pid db).2 = [] := by
    refine conflictsOf_eq_nil.mpr ?_
    intro c' hc'
    rw [hm1, hm2, hm3] at hc'
    have : c' = c := by simpa using hc'
    subst this
    exact hnone
  exact ⟨_, _, generatePack_valid b hreq hdup hex hconf⟩

/-- Witness for C9: deleting `P1` (sole owner of cell `X`) and
resubmitting `X` under the fresh serial `P2` succeeds. -/
theorem claim9_witness :
    (deletePack "P1" exDB9).1 = true ∧
    getAllCells (deletePack "P1" exDB9).2 "X" = none ∧
    ∃ d db2, generatePack ⟨some "P2", false, none, some (.arr ["X"]), none, none⟩ exNow
      (some exBundle) (deletePack "P1" exDB9).2 = (.ok d, db2) :=
  claim9_delete_frees exDB9 "P1" ⟨"P1", "T", none, [("M1", ["X"])], []⟩ "X" exNow exBundle "P2"
    (by decide) (by decide) (by decide) (by decide) (by decide) (by decide) (by decide)

end BatteryPack
